import Mathlib

/-!
Verification of the Secret Angel Telegram bot (`src/bot.js`, `src/security.js`).

The JavaScript source is shallowly embedded: each JS function becomes an
executable Lean definition with the same structure.  `crypto.randomInt(0, b)`
is modelled by an oracle `rand : Nat → Nat` indexed by the number of calls made
so far; the value drawn for an exclusive bound `b` is `rand k % b`, which
ranges over exactly the interval `[0, b)` that `randomInt` guarantees.
-/

namespace SecretAngel

/-! ### Shuffle (`shuffle`, bot.js lines 203-208)

`for (let i = array.length - 1; i > 0; i--) { const j = crypto.randomInt(0, i + 1);
 [array[i], array[j]] = [array[j], array[i]]; }` -/

/-- The destructuring swap `[array[i], array[j]] = [array[j], array[i]]`.
If either index is out of bounds the list is returned unchanged (never the
case in `shuffle`). -/
def listSwap (l : List α) (i j : Nat) : List α :=
  match l.get? i, l.get? j with
  | some x, some y => (l.set i y).set j x
  | _, _ => l

/-- The loop body of `shuffle`, iterating the loop variable downward.
`shuffleGo rand k i l` runs the body for loop variables `i, i-1, …, 1`,
where `rand k % (v + 1)` models `crypto.randomInt(0, v + 1)` for the loop
variable `v`, and `k` counts random draws made before this call. -/
def shuffleGo (rand : Nat → Nat) : Nat → Nat → List α → List α
  | _, 0, l => l
  | k, i + 1, l => shuffleGo rand (k + 1) i (listSwap l (i + 1) (rand k % (i + 2)))

/-- `shuffle(array)` from bot.js: Fisher-Yates over the whole list. -/
def shuffle (rand : Nat → Nat) (k : Nat) (l : List α) : List α :=
  shuffleGo rand k (l.length - 1) l

theorem cons_set_perm (a : α) : ∀ (t : List α) (m : Nat) (hm : m < t.length),
    (t.get ⟨m, hm⟩ :: t.set m a).Perm (a :: t)
  | b :: t, 0, _ => List.Perm.swap a b t
  | b :: t, m + 1, hm => by
    have hm' : m < t.length := by simpa using Nat.lt_of_succ_lt_succ hm
    have ih := cons_set_perm a t m hm'
    have step1 : (t.get ⟨m, hm'⟩ :: b :: t.set m a).Perm (b :: t.get ⟨m, hm'⟩ :: t.set m a) :=
      List.Perm.swap _ _ _
    have step2 : (b :: t.get ⟨m, hm'⟩ :: t.set m a).Perm (b :: a :: t) := ih.cons b
    have step3 : (b :: a :: t).Perm (a :: b :: t) := List.Perm.swap _ _ _
    have : ((b :: t).get ⟨m + 1, hm⟩ :: (b :: t).set (m + 1) a)
        = (t.get ⟨m, hm'⟩ :: b :: t.set m a) := by simp [List.set]
    rw [this]
    exact (step1.trans step2).trans step3

theorem set_set_perm : ∀ (l : List α) (i j : Nat) (hi : i < l.length) (hj : j < l.length),
    ((l.set i (l.get ⟨j, hj⟩)).set j (l.get ⟨i, hi⟩)).Perm l
  | a :: t, 0, 0, _, _ => by simp
  | a :: t, 0, j + 1, _, hj => by
    have hj' : j < t.length := by simpa using Nat.lt_of_succ_lt_succ hj
    simpa [List.set] using cons_set_perm a t j hj'
  | a :: t, i + 1, 0, hi, _ => by
    have hi' : i < t.length := by simpa using Nat.lt_of_succ_lt_succ hi
    simpa [List.set] using cons_set_perm a t i hi'
  | a :: t, i + 1, j + 1, hi, hj => by
    have hi' : i < t.length := by simpa using Nat.lt_of_succ_lt_succ hi
    have hj' : j < t.length := by simpa using Nat.lt_of_succ_lt_succ hj
    simpa [List.set] using (set_set_perm t i j hi' hj').cons a

theorem listSwap_perm (l : List α) (i j : Nat) : (listSwap l i j).Perm l := by
  unfold listSwap
  rcases hx : l.get? i with - | x
  · simp
  rcases hy : l.get? j with - | y
  · simp
  have hi : i < l.length := List.get?_eq_some.mp hx |>.1
  have hj : j < l.length := List.get?_eq_some.mp hy |>.1
  have hxv : x = l.get ⟨i, hi⟩ := by
    have := List.get?_eq_some.mp hx
    exact this.2.symm
  have hyv : y = l.get ⟨j, hj⟩ := by
    have := List.get?_eq_some.mp hy
    exact this.2.symm
  subst hxv; subst hyv
  exact set_set_perm l i j hi hj

theorem shuffleGo_perm (rand : Nat → Nat) :
    ∀ (i k : Nat) (l : List α), (shuffleGo rand k i l).Perm l
  | 0, _, _ => List.Perm.refl _
  | i + 1, k, l =>
    (shuffleGo_perm rand i (k + 1) _).trans (listSwap_perm l (i + 1) (rand k % (i + 2)))

theorem shuffle_perm (rand : Nat → Nat) (k : Nat) (l : List α) :
    (shuffle rand k l).Perm l :=
  shuffleGo_perm rand (l.length - 1) k l

theorem shuffle_length (rand : Nat → Nat) (k : Nat) (l : List α) :
    (shuffle rand k l).length = l.length :=
  (shuffle_perm rand k l).length_eq

theorem shuffle_nodup (rand : Nat → Nat) (k : Nat) (l : List α) (h : l.Nodup) :
    (shuffle rand k l).Nodup :=
  ((shuffle_perm rand k l).nodup_iff).mpr h

/-! ### JavaScript string primitives

Structurally recursive embeddings of the string operations the source uses
(`trim`, `toLowerCase`, `split`, `substring`, regex containment), so that
every definition in this file evaluates by kernel reduction. -/

/-- `String.prototype.trim()`: strip whitespace from both ends. -/
def trimChars (l : List Char) : List Char :=
  ((l.dropWhile Char.isWhitespace).reverse.dropWhile Char.isWhitespace).reverse

/-- `text.trim()`. -/
def jsTrim (s : String) : String := String.mk (trimChars s.data)

/-- `text.toLowerCase()` (ASCII, which covers every comparison the source
makes: the literals `none`, `skip`, `yes` and participant names). -/
def jsToLower (s : String) : String := String.mk (s.data.map Char.toLower)

/-- `String.prototype.split(sep)` for a one-character separator, on the
character list.  `''.split(sep)` is `['']`, matching JavaScript. -/
def splitOnChar (sep : Char) : List Char → List (List Char)
  | [] => [[]]
  | c :: cs =>
    let r := splitOnChar sep cs
    if c = sep then [] :: r
    else
      match r with
      | h :: t => (c :: h) :: t
      | [] => [[c]]

/-- `text.split(sep)` for the one-character separators the source uses
(`'\n'` and `','`). -/
def jsSplit (s : String) (sep : Char) : List String :=
  (splitOnChar sep s.data).map String.mk

/-- Whether `pat` occurs as a contiguous run inside `text` — an unanchored
literal regex test such as `/\/start/.test(text)`. -/
def regexHits (pat : List Char) : List Char → Bool
  | [] => pat.isEmpty
  | c :: rest => pat.isPrefixOf (c :: rest) || regexHits pat rest

/-! ### `src/security.js` -/

def MAX_NAME_LENGTH : Nat := 100
def MAX_WISHLIST_LENGTH : Nat := 1000
def MAX_RESTRICTIONS_INPUT_LENGTH : Nat := 5000

/-- The per-character effect of the chained `.replace` calls in `sanitizeInput`.
`Char.ofNat 34` is the double quote, `Char.ofNat 39` the apostrophe. -/
def escapeChar (c : Char) : String :=
  if c = '<' then "&lt;"
  else if c = '>' then "&gt;"
  else if c = Char.ofNat 34 then "&quot;"
  else if c = Char.ofNat 39 then "&#x27;"
  else if c = '/' then "&#x2F;"
  else String.mk [c]

/-- `sanitizeInput` (security.js lines 15-27): the five global character
replacements followed by `.trim()`.  The chained `String.replace` calls are
equivalent to one character-wise map because no replacement output contains a
replaced character. -/
def sanitizeInput (input : String) : String :=
  jsTrim (String.join (input.data.map escapeChar))

/-- The character class of the regex `/^[\w\s\-']+$/u` in `validateName`. -/
def nameChar (c : Char) : Bool :=
  c.isAlphanum || c = '_' || c.isWhitespace || c = '-' || c = Char.ofNat 39

/-- `validateName` (security.js lines 34-52).  `null` becomes `none`.
The leading falsy test `!name` rejects the empty string. -/
def validateName (name : String) : Option String :=
  if name = "" then none
  else
    let sanitizedName := sanitizeInput (jsTrim name)
    if sanitizedName.length = 0 || sanitizedName.length > MAX_NAME_LENGTH then none
    else if !(sanitizedName.data.all nameChar) then none
    else some sanitizedName

/-- `validateWishlist` (security.js lines 59-71): falsy input gives `""`,
otherwise sanitize and truncate to 1000 characters. -/
def validateWishlist (wishlist : String) : String :=
  if wishlist = "" then ""
  else
    let sanitizedWishlist := sanitizeInput (jsTrim wishlist)
    if sanitizedWishlist.length > MAX_WISHLIST_LENGTH then
      String.mk (sanitizedWishlist.data.take MAX_WISHLIST_LENGTH)
    else sanitizedWishlist

/-- Longest prefix of decimal digits. -/
def leadingDigits : List Char → List Char
  | [] => []
  | c :: cs => if c.isDigit then c :: leadingDigits cs else []

/-- `parseInt(input, 10)`: skip leading whitespace, optional sign, read the
leading digit run and ignore trailing characters; `NaN` (here `none`) if the
digit run is empty. -/
def parseIntJS (s : String) : Option Int :=
  let cs := s.data.dropWhile Char.isWhitespace
  let readNat : List Char → Option Nat := fun l =>
    let ds := leadingDigits l
    if ds = [] then none
    else some (ds.foldl (fun a c => a * 10 + (c.toNat - 48)) 0)
  match cs with
  | '-' :: rest => (readNat rest).map (fun n => -(n : Int))
  | '+' :: rest => (readNat rest).map (fun n => (n : Int))
  | _ => (readNat cs).map (fun n => (n : Int))

/-- `validateNumber` (security.js lines 80-88). -/
def validateNumber (input : String) (min max : Int) : Option Int :=
  match parseIntJS input with
  | none => none
  | some num => if num < min || num > max then none else some num

/-- The per-line body of the `for` loop in `validateRestrictionsInput`
(security.js lines 114-136), processing the remaining lines; returning `none`
models `return null`. -/
def parseRestrictionLines (validParticipants : List String) :
    List String → Option (List (String × String))
  | [] => some []
  | line :: rest =>
    let trimmedLine := jsTrim line
    if trimmedLine = "" then parseRestrictionLines validParticipants rest
    else
      let pair := (jsSplit trimmedLine ',').map jsTrim
      -- `pair.length !== 2 || pair.some(name => !name)`
      if pair.length ≠ 2 then none
      else if pair.getD 0 "" = "" || pair.getD 1 "" = "" then none
      -- `!validParticipants.includes(pair[0]) || !validParticipants.includes(pair[1])`
      else if !(validParticipants.contains (pair.getD 0 "")) ||
              !(validParticipants.contains (pair.getD 1 "")) then none
      -- `pair[0] === pair[1]`
      else if pair.getD 0 "" = pair.getD 1 "" then none
      else
        (parseRestrictionLines validParticipants rest).map
          (fun rs => (pair.getD 0 "", pair.getD 1 "") :: rs)

/-- `validateRestrictionsInput` (security.js lines 96-142).  A restriction
pair `[p1, p2]` is modelled as `(p1, p2)`.  The `try`/`catch` wrapper never
fires (no operation inside throws) and is omitted. -/
def validateRestrictionsInput (input : String) (validParticipants : List String) :
    Option (List (String × String)) :=
  if input = "" then some []
  else if input.length > MAX_RESTRICTIONS_INPUT_LENGTH then none
  else
    let trimmedInput := jsTrim input
    if jsToLower trimmedInput = "none" || trimmedInput = "" then some []
    else parseRestrictionLines validParticipants (jsSplit trimmedInput '\n')

/-! ### `src/bot.js` utility functions -/

/-- The errors thrown by the two utility functions.  The two `throw new Error`
sites of `assignParticipantsToGroups` are the spec's `InvalidGroupCount`; the
retry-exhaustion `throw` of `assignSecretAngels` is `AssignmentInfeasible` and
carries the offending group, which the thrown message names. -/
inductive BotError where
  | invalidGroupCountLow
  | invalidGroupCountHigh
  | infeasible (group : List String)
deriving DecidableEq, Repr

/-- `isRestricted` (bot.js lines 260-271).  Restriction pairs always have
exactly two entries here, so the defensive `pair.length === 2` check is
subsumed by the pair representation. -/
def isRestricted (giver receiver : String) (restrictions : List (String × String)) : Bool :=
  restrictions.any (fun pair =>
    (pair.1 = giver && pair.2 = receiver) || (pair.1 = receiver && pair.2 = giver))

/-- The `for (let i = 0; i < n; i++)` loop of `assignSecretAngels`
(bot.js lines 304-323), iterated over the remaining indices.  `none` models
`isValid = false` (abort this attempt); `some acc` is `potentialMatches`. -/
def buildMatches (shuffledGroup : List String) (restrictions : List (String × String)) :
    List Nat → List (String × String) → Option (List (String × String))
  | [], acc => some acc
  | i :: rest, acc =>
    let giver := shuffledGroup.getD i ""
    let receiver := shuffledGroup.getD ((i + 1) % shuffledGroup.length) ""
    if giver = receiver then none
    else if isRestricted giver receiver restrictions then none
    else buildMatches shuffledGroup restrictions rest (acc ++ [(giver, receiver)])

/-- The `while (attempts < maxRetries)` loop of `assignSecretAngels`
(bot.js lines 296-329).  `fuel` is the number of attempts left, `k` the number
of random draws consumed so far (each attempt draws `group.length - 1`). -/
def assignLoop (group : List String) (restrictions : List (String × String))
    (rand : Nat → Nat) : Nat → Nat → Except BotError (List (String × String))
  | 0, _ => .error (.infeasible group)
  | fuel + 1, k =>
    let shuffledGroup := shuffle rand k group
    match buildMatches shuffledGroup restrictions (List.range group.length) [] with
    | some potentialMatches => .ok potentialMatches
    | none => assignLoop group restrictions rand fuel (k + (group.length - 1))

/-- `assignSecretAngels` (bot.js lines 283-333): a group with fewer than two
members yields no assignments; otherwise up to 100 shuffle attempts. -/
def assignSecretAngels (group : List String) (restrictions : List (String × String))
    (rand : Nat → Nat) : Except BotError (List (String × String)) :=
  if group.length < 2 then .ok []
  else assignLoop group restrictions rand 100 0

/-- `baseParticipantsPerGroup + (i < remainder ? 1 : 0)`: the slice size the
loop computes for loop index `i`. -/
def sliceSize (base rem i : Nat) : Nat := base + (if i < rem then 1 else 0)

/-- The `for (let i = 0; i < numGroups; i++)` slicing loop of
`assignParticipantsToGroups` (bot.js lines 237-247), iterated over the
remaining loop indices. `slice(start, start + size)` is `drop`/`take`. -/
def groupSlices (shuffledParticipants : List String) (base remainder : Nat) :
    List Nat → Nat → List (List String)
  | [], _ => []
  | i :: rest, startIndex =>
    let groupSize0 := sliceSize base remainder i
    let groupSize :=
      if groupSize0 = 0 && 0 < shuffledParticipants.length then 1 else groupSize0
    let group := (shuffledParticipants.drop startIndex).take groupSize
    let others := groupSlices shuffledParticipants base remainder rest (startIndex + groupSize)
    if 0 < group.length then group :: others else others

/-- `assignParticipantsToGroups` (bot.js lines 216-251).  `numGroups` is an
`Int` since the JS function can receive any integer.  `rand`/`k` model the
randomness consumed by the internal `shuffle` call. -/
def assignParticipantsToGroups (participants : List String) (numGroups : Int)
    (rand : Nat → Nat) (k : Nat) : Except BotError (List (List String)) :=
  if participants.length = 0 then .ok []
  else if numGroups < 1 then .error .invalidGroupCountLow
  else if numGroups > (participants.length : Int) then .error .invalidGroupCountHigh
  else
    let shuffledParticipants := shuffle rand k participants
    let n := numGroups.toNat
    let base := participants.length / n
    let remainder := participants.length % n
    .ok ((groupSlices shuffledParticipants base remainder (List.range n) 0).filter
      (fun g => decide (0 < g.length)))

/-! ### Database and transaction model

The four tables created in bot.js lines 75-114.  `pseq` models the serial
sequence of `tg_participants.id`; group ids restart from 1 inside every run
because the orchestration truncates `tg_groups` with `RESTART IDENTITY`. -/

/-- `tg_participants` rows are `(id, name, wishlist)`; `tg_groups` rows are
`(group_id, group_name)`; `tg_group_members` rows are
`(group_id, participant_id)`; `tg_assignments` rows are
`(group_id, giver_participant_id, receiver_participant_id)`. -/
structure DB where
  participants : List (Nat × String × String)
  pseq : Nat
  groups : List (Nat × String)
  members : List (Nat × Nat)
  assignments : List (Nat × Nat × Nat)
deriving DecidableEq, Repr

/-- A `pg` client connection: the committed (visible) database plus the
uncommitted working copy while a transaction is open. -/
structure TxConn where
  visible : DB
  pending : Option DB
deriving DecidableEq, Repr

/-- `client.query('BEGIN')`. -/
def txBegin (c : TxConn) : TxConn := { c with pending := some c.visible }

/-- `client.query('ROLLBACK')`: discard the working copy. -/
def txRollback (c : TxConn) : TxConn := { c with pending := none }

/-- `client.query('COMMIT')`: publish the working copy. -/
def txCommit (c : TxConn) : TxConn :=
  { visible := c.pending.getD c.visible, pending := none }

/-- The database state a data query runs against. -/
def pendingOf (c : TxConn) : DB := c.pending.getD c.visible

/-- A data-modifying `client.query(...)`: inside a transaction it updates the
working copy, outside it autocommits. -/
def applyQuery (c : TxConn) (f : DB → DB) : TxConn :=
  match c.pending with
  | some p => { c with pending := some (f p) }
  | none => { c with visible := f c.visible }

/-- `TRUNCATE TABLE tg_groups, tg_group_members, tg_assignments RESTART
IDENTITY CASCADE` (bot.js line 673). -/
def truncateRunTables (db : DB) : DB :=
  { db with groups := [], members := [], assignments := [] }

/-- `TRUNCATE TABLE tg_participants, tg_groups, tg_group_members,
tg_assignments RESTART IDENTITY CASCADE` (bot.js line 614). -/
def truncateAllTables : DB :=
  { participants := [], pseq := 0, groups := [], members := [], assignments := [] }

/-- `INSERT INTO tg_participants ... ON CONFLICT (name) DO UPDATE SET
wishlist = EXCLUDED.wishlist` (bot.js line 543). -/
def upsertParticipant (db : DB) (name wishlist : String) : DB :=
  if db.participants.any (fun row => row.2.1 = name) then
    { db with participants :=
        db.participants.map (fun row => if row.2.1 = name then (row.1, name, wishlist) else row) }
  else
    { db with
        participants := db.participants ++ [(db.pseq + 1, name, wishlist)]
        pseq := db.pseq + 1 }

/-! ### Assignment orchestration (bot.js lines 669-776)

The `awaiting_restrictions` handler body after restriction validation.
`qerr k = true` means the `k`-th failable `client.query` call of the run
throws (store fault); `mrand i` is the entropy stream consumed by the
`assignSecretAngels` call for group index `i`, `grand` the one consumed by the
grouping shuffle.  A thrown query error propagates to a `ROLLBACK` (either at
the failure site or in the surrounding `catch`), so every failure path below
returns the rolled-back connection. -/

/-- Connection plus count of failable queries issued so far. -/
abbrev OrchSt := TxConn × Nat

/-- The member-insertion loop (bot.js lines 725-735): resolve each name
through the roster snapshot map; a missing id or a query throw aborts with
rollback. -/
def insertMembers (qerr : Nat → Bool) (pmap : String → Option Nat) (groupId : Nat) :
    List String → OrchSt → Except OrchSt OrchSt
  | [], st => .ok st
  | name :: rest, (c, k) =>
    match pmap name with
    | none => .error (txRollback c, k)
    | some participantId =>
      if qerr k then .error (txRollback c, k + 1)
      else
        insertMembers qerr pmap groupId rest
          (applyQuery c (fun db => { db with members := db.members ++ [(groupId, participantId)] }),
           k + 1)

/-- The assignment-insertion loop (bot.js lines 739-752). -/
def insertAssignments (qerr : Nat → Bool) (pmap : String → Option Nat) (groupId : Nat) :
    List (String × String) → OrchSt → Except OrchSt OrchSt
  | [], st => .ok st
  | (giver, receiver) :: rest, (c, k) =>
    match pmap giver, pmap receiver with
    | some giverId, some receiverId =>
      if qerr k then .error (txRollback c, k + 1)
      else
        insertAssignments qerr pmap groupId rest
          (applyQuery c (fun db =>
            { db with assignments := db.assignments ++ [(groupId, giverId, receiverId)] }),
           k + 1)
    | _, _ => .error (txRollback c, k)

/-- The per-group loop (bot.js lines 683-755): skip groups of fewer than two
members, match, then persist the group row, its members and its assignments.
`i` is the loop index (used for the group label and the entropy stream). -/
def processGroups (qerr : Nat → Bool) (pmap : String → Option Nat)
    (restrictions : List (String × String)) (mrand : Nat → Nat → Nat) :
    List (List String) → Nat → OrchSt → Except OrchSt OrchSt
  | [], _, st => .ok st
  | groupNames :: rest, i, (c, k) =>
    if groupNames.length < 2 then
      processGroups qerr pmap restrictions mrand rest (i + 1) (c, k)
    else
      match assignSecretAngels groupNames restrictions (mrand i) with
      | .error _ => .error (txRollback c, k)
      | .ok matchList =>
        if matchList.length = 0 then .error (txRollback c, k)
        else if qerr k then .error (txRollback c, k + 1)
        else
          let groupId := (pendingOf c).groups.length + 1
          let label := "Secret Angel Group " ++ toString (i + 1)
          let c1 := applyQuery c (fun db => { db with groups := db.groups ++ [(groupId, label)] })
          match insertMembers qerr pmap groupId groupNames (c1, k + 1) with
          | .error st => .error st
          | .ok st1 =>
            match insertAssignments qerr pmap groupId matchList st1 with
            | .error st => .error st
            | .ok st2 => processGroups qerr pmap restrictions mrand rest (i + 1) st2

/-- The roster snapshot map `participantMap` (bot.js line 655): participant
name to persisted id. -/
def rosterMap (snapshot : List (Nat × String)) : String → Option Nat :=
  fun name => (snapshot.find? (fun p => p.2 = name)).map Prod.fst

/-- The whole orchestration run (bot.js lines 670-773): `BEGIN`, truncate the
run tables, group, process every group, `COMMIT` — rolling back on any fault.
Returns the now-visible database and whether the run committed. -/
def orchestrate (qerr : Nat → Bool) (snapshot : List (Nat × String)) (numGroups : Int)
    (restrictions : List (String × String)) (grand : Nat → Nat) (mrand : Nat → Nat → Nat)
    (db : DB) : DB × Bool :=
  if qerr 0 then
    ((txRollback (txBegin { visible := db, pending := none })).visible, false)
  else
    match assignParticipantsToGroups (snapshot.map Prod.snd) numGroups grand 0 with
    | .error _ =>
      ((txRollback (applyQuery (txBegin { visible := db, pending := none })
        truncateRunTables)).visible, false)
    | .ok createdGroupsByName =>
      match processGroups qerr (rosterMap snapshot) restrictions mrand createdGroupsByName 0
          (applyQuery (txBegin { visible := db, pending := none }) truncateRunTables, 1) with
      | .error (c, _) => (c.visible, false)
      | .ok (c, k) =>
        if qerr k then ((txRollback c).visible, false)
        else ((txCommit c).visible, true)

/-! ### Conversation state machine (bot.js lines 337-876)

`userState[chatId]` entries.  The JS object is stringly typed: `state` is a
string tag and the other fields are the step-scoped data attached by the
handlers, so the embedding mirrors that record shape directly. -/

structure StateData where
  state : String
  name : Option String := none
  participantCount : Nat := 0
  participants : List (Nat × String) := []
  numGroups : Int := 0
deriving DecidableEq, Repr

/-- Observable outbound behaviour of one inbound event: each constructor tags
one of the `bot.sendMessage` sites (plus `deadBranchStub` for the unfinished
duplicate `awaiting_num_groups` handler at bot.js lines 777-874, whose only
reachable sends would be its stub messages). -/
inductive Effect where
  | welcome
  | askName
  | invalidName
  | askWishlist
  | registered
  | registrationError
  | assignmentInfo (receiverName receiverWishlist : String)
  | noAssignmentYet
  | notRegistered
  | adminOnly
  | stateAuthError
  | clearPrompt
  | clearDone
  | clearFailed
  | clearCancelled
  | notEnoughParticipants
  | askNumGroups
  | invalidNumGroups
  | askRestrictions
  | invalidRestrictions
  | processing
  | orchCommitted
  | orchFailed
  | deadBranchStub
deriving DecidableEq, Repr

/-- The `/myassignment` lookup query (bot.js lines 570-579): join
`tg_assignments` with giver and receiver `tg_participants` rows, filtering by
case-insensitive giver name; returns the receiver's name and wishlist. -/
def findAssignmentByGiver (db : DB) (name : String) : Option (String × String) :=
  (db.assignments.filterMap (fun a =>
    match db.participants.find? (fun g => g.1 = a.2.1),
          db.participants.find? (fun r => r.1 = a.2.2) with
    | some g, some r =>
      if jsToLower g.2.1 = jsToLower name then some (r.2.1, r.2.2) else none
    | _, _ => none)).head?

/-- `SELECT 1 FROM tg_participants WHERE lower(name) = lower($1)`
(bot.js line 588). -/
def participantExists (db : DB) (name : String) : Bool :=
  db.participants.any (fun p => jsToLower p.2.1 = jsToLower name)

/-- `text.startsWith('/')` (bot.js line 505): the first character is `/`. -/
def startsWithSlash (text : String) : Bool :=
  match text.data with
  | [] => false
  | c :: _ => c = '/'

/-- The body of `bot.on('message', ...)` (bot.js lines 493-876) after the
rate-limit admission check: the command short-circuit at lines 504-513
followed by the state-dispatch `if`/`else if` chain — including the dead
second `awaiting_num_groups` branch.  `isAdminCaller` is `isAdmin(userId)`;
`qerr`, `grand`, `mrand` are the store-fault and entropy oracles used by the
branch bodies.  Returns the new `userState[chatId]` entry, the database and
the sent messages. -/
def handleMessage (isAdminCaller : Bool) (st : Option StateData) (text : String) (db : DB)
    (qerr : Nat → Bool) (grand : Nat → Nat) (mrand : Nat → Nat → Nat) :
    Option StateData × DB × List Effect :=
  if startsWithSlash text then
    -- lines 504-513: clear any state and leave the command to the onText handlers
    (none, db, [])
  else
    match st with
    | none => (none, db, [])
    | some stateData =>
      if stateData.state = "awaiting_name" then
        match validateName text with
        | none => (some stateData, db, [.invalidName])
        | some sanitizedName =>
          (some { stateData with state := "awaiting_wishlist", name := some sanitizedName },
           db, [.askWishlist])
      else if stateData.state = "awaiting_wishlist" then
        let name := stateData.name.getD ""
        let sanitizedWishlist := if jsToLower text ≠ "skip" then validateWishlist text else ""
        if qerr 0 then (none, db, [.registrationError])
        else (none, upsertParticipant db name sanitizedWishlist, [.registered])
      else if stateData.state = "awaiting_name_for_assignment" then
        match validateName text with
        | none => (some stateData, db, [.invalidName])
        | some sanitizedName =>
          match findAssignmentByGiver db sanitizedName with
          | some (receiverName, receiverWishlist) =>
            (none, db, [.assignmentInfo receiverName receiverWishlist])
          | none =>
            if participantExists db sanitizedName then (none, db, [.noAssignmentYet])
            else (none, db, [.notRegistered])
      else if stateData.state = "awaiting_clear_confirmation" then
        if !isAdminCaller then (none, db, [.stateAuthError])
        else if jsToLower text = "yes" then
          if qerr 0 then (none, db, [.clearFailed])
          else (none, truncateAllTables, [.clearDone])
        else (none, db, [.clearCancelled])
      else if stateData.state = "awaiting_num_groups" then
        if !isAdminCaller then (none, db, [.stateAuthError])
        else
          match validateNumber text 1 (stateData.participantCount : Int) with
          | none => (some stateData, db, [.invalidNumGroups])
          | some numGroups =>
            (some { stateData with state := "awaiting_restrictions", numGroups := numGroups },
             db, [.askRestrictions])
      else if stateData.state = "awaiting_restrictions" then
        if !isAdminCaller then (none, db, [.stateAuthError])
        else
          let participantNames := stateData.participants.map Prod.snd
          match validateRestrictionsInput text participantNames with
          | none => (some stateData, db, [.invalidRestrictions])
          | some restrictions =>
            let r := orchestrate qerr stateData.participants stateData.numGroups restrictions
              grand mrand db
            (none, r.1, [.processing, if r.2 then .orchCommitted else .orchFailed])
      else if stateData.state = "awaiting_num_groups" then
        -- dead duplicate handler, bot.js lines 777-874 (unfinished stub)
        if !isAdminCaller then (none, db, [.stateAuthError])
        else (none, db, [.deadBranchStub])
      else (some stateData, db, [])

/-- Run one `onText` handler: its unanchored regexp fires when `pat` occurs
anywhere in `text`. -/
def runTextHandler (text pat : String)
    (handler : Option StateData → Option StateData × List Effect)
    (acc : Option StateData × List Effect) : Option StateData × List Effect :=
  if regexHits pat.data text.data then
    let r := handler acc.1
    (r.1, acc.2 ++ r.2)
  else acc

/-- The `bot.onText` command handlers (bot.js lines 346-488) after their
rate-limit admission checks.  `node-telegram-bot-api` matches each registered
regexp (unanchored) against the text after the `message` event fires; none of
these handlers reads the previous conversation state.  Matching handlers run
in registration order. -/
def commandDispatch (isAdminCaller : Bool) (st : Option StateData) (text : String) (db : DB) :
    Option StateData × List Effect :=
  runTextHandler text "/creategroups"
    (fun s =>
      if !isAdminCaller then (s, [.adminOnly])
      else if db.participants.length < 2 then (s, [.notEnoughParticipants])
      else
        (some { state := "awaiting_num_groups",
                participantCount := db.participants.length,
                participants := db.participants.map (fun p => (p.1, p.2.1)) },
         [.askNumGroups]))
    (runTextHandler text "/cleardata"
      (fun s =>
        if !isAdminCaller then (s, [.adminOnly])
        else (some { state := "awaiting_clear_confirmation" }, [.clearPrompt]))
      (runTextHandler text "/participants"
        (fun s => if !isAdminCaller then (s, [.adminOnly]) else (s, []))
        (runTextHandler text "/myassignment"
          (fun _ => (some { state := "awaiting_name_for_assignment" }, []))
          (runTextHandler text "/register"
            (fun _ => (some { state := "awaiting_name" }, [.askName]))
            (runTextHandler text "/start"
              (fun _ => (none, [.welcome]))
              (st, []))))))

/-- One full inbound text event after rate-limit admission: the `message`
event handler runs first (clearing state on a command), then the `onText`
command handlers. -/
def botStep (isAdminCaller : Bool) (st : Option StateData) (text : String) (db : DB)
    (qerr : Nat → Bool) (grand : Nat → Nat) (mrand : Nat → Nat → Nat) :
    Option StateData × DB × List Effect :=
  let m := handleMessage isAdminCaller st text db qerr grand mrand
  let c := commandDispatch isAdminCaller m.1 text m.2.1
  (c.1, m.2.1, m.2.2 ++ c.2)

/-! ### Theorems -/

/-- C10: `validateRestrictionsInput` returns the invalid signal (`none`) for
every input string longer than 5000 characters, whatever the roster and
however well-formed the lines are — the total-length cap is checked before
any per-line parsing. -/
theorem C10_restrictions_length_cap (input : String) (validParticipants : List String)
    (h : MAX_RESTRICTIONS_INPUT_LENGTH < input.length) :
    validateRestrictionsInput input validParticipants = none := by
  have hne : input ≠ "" := by
    intro he
    rw [he] at h
    exact absurd h (by decide)
  unfold validateRestrictionsInput
  rw [if_neg hne, if_pos h]

/-- Witness for C10: a concrete 5001-character input whose single line is a
correctly formatted pair of distinct roster names. -/
theorem C10_witness :
    validateRestrictionsInput ("Alice, Bob" ++ String.mk (List.replicate 4991 ' '))
      ["Alice", "Bob"] = none :=
  C10_restrictions_length_cap _ _ (by
    have h : ("Alice, Bob" ++ String.mk (List.replicate 4991 ' ')).length = 5001 := by
      rw [String.length_append]
      norm_num [String.length]
    rw [h]
    decide)

/-- C5: `assignParticipantsToGroups` fails with an `InvalidGroupCount` error
exactly when the participant list is non-empty and the requested count `n`
satisfies `n < 1` or `n > P`; on an empty participant list it returns an
empty group collection for every `n`. -/
theorem C5_invalid_group_count (ps : List String) (n : Int) (rand : Nat → Nat) (k : Nat) :
    (ps = [] → assignParticipantsToGroups ps n rand k = .ok []) ∧
    ((∃ e, assignParticipantsToGroups ps n rand k = .error e) ↔
      ps ≠ [] ∧ (n < 1 ∨ (ps.length : Int) < n)) ∧
    (∀ e, assignParticipantsToGroups ps n rand k = .error e →
      e = BotError.invalidGroupCountLow ∨ e = BotError.invalidGroupCountHigh) := by
  unfold assignParticipantsToGroups
  by_cases h0 : ps.length = 0
  · have hnil : ps = [] := List.length_eq_zero.mp h0
    subst hnil
    simp
  · have hne : ps ≠ [] := fun h => h0 (by simp [h])
    rw [if_neg h0]
    by_cases h1 : n < 1
    · rw [if_pos h1]
      refine ⟨fun h => absurd h hne, ⟨fun _ => ⟨hne, Or.inl h1⟩, fun _ => ⟨_, rfl⟩⟩, ?_⟩
      intro e he
      exact Or.inl (Except.error.inj he).symm
    · rw [if_neg h1]
      by_cases h2 : n > (ps.length : Int)
      · rw [if_pos h2]
        refine ⟨fun h => absurd h hne, ⟨fun _ => ⟨hne, Or.inr h2⟩, fun _ => ⟨_, rfl⟩⟩, ?_⟩
        intro e he
        exact Or.inr (Except.error.inj he).symm
      · rw [if_neg h2]
        refine ⟨fun h => absurd h hne, ⟨?_, ?_⟩, ?_⟩
        · rintro ⟨e, he⟩
          exact Except.noConfusion he
        · rintro ⟨-, h | h⟩
          · exact absurd h h1
          · exact absurd h h2
        · intro e he
          exact Except.noConfusion he

/-- Witness for C5 at concrete inputs: the empty roster returns no groups for
any count, and a count exceeding the roster size errors. -/
theorem C5_witness :
    assignParticipantsToGroups [] 7 (fun _ => 0) 0 = .ok [] ∧
    (∃ e, assignParticipantsToGroups ["A", "B"] 3 (fun _ => 0) 0 = .error e) :=
  ⟨(C5_invalid_group_count [] 7 (fun _ => 0) 0).1 rfl,
   (C5_invalid_group_count ["A", "B"] 3 (fun _ => 0) 0).2.1.mpr
     ⟨by simp, Or.inr (by decide)⟩⟩

/-- C7: while any conversation state is active, a message whose text starts
with `/` is never processed as that state's input — the handler deletes the
state entry and the message is handled exactly as the same command arriving
with no active state. -/
theorem C7_command_discards_state (isAdminCaller : Bool) (sd : StateData) (text : String)
    (db : DB) (qerr : Nat → Bool) (grand : Nat → Nat) (mrand : Nat → Nat → Nat)
    (h : startsWithSlash text = true) :
    handleMessage isAdminCaller (some sd) text db qerr grand mrand = (none, db, []) ∧
    botStep isAdminCaller (some sd) text db qerr grand mrand =
      botStep isAdminCaller none text db qerr grand mrand := by
  constructor
  · unfold handleMessage
    rw [if_pos h]
  · unfold botStep handleMessage
    rw [if_pos h, if_pos h]

/-- Witness for C7: an active `awaiting_restrictions` state and the command
text `/start`. -/
theorem C7_witness :
    handleMessage true (some { state := "awaiting_restrictions" }) "/start"
      { participants := [], pseq := 0, groups := [], members := [], assignments := [] }
      (fun _ => false) (fun _ => 0) (fun _ _ => 0) =
      (none,
       { participants := [], pseq := 0, groups := [], members := [], assignments := [] },
       []) :=
  (C7_command_discards_state true { state := "awaiting_restrictions" } "/start"
    { participants := [], pseq := 0, groups := [], members := [], assignments := [] }
    (fun _ => false) (fun _ => 0) (fun _ _ => 0) (by decide)).1

/-- An `onText` handler neither introduces an effect its own branches never
send nor disturbs such an absence in the accumulator. -/
theorem runTextHandler_not_mem (e : Effect) (text pat : String)
    (handler : Option StateData → Option StateData × List Effect)
    (acc : Option StateData × List Effect)
    (hacc : e ∉ acc.2) (hh : ∀ s, e ∉ (handler s).2) :
    e ∉ (runTextHandler text pat handler acc).2 := by
  unfold runTextHandler
  split
  · intro hmem
    rcases List.mem_append.mp hmem with hmem | hmem
    · exact hacc hmem
    · exact hh _ hmem
  · exact hacc

theorem commandDispatch_no_dead (isAdminCaller : Bool) (st : Option StateData)
    (text : String) (db : DB) :
    Effect.deadBranchStub ∉ (commandDispatch isAdminCaller st text db).2 := by
  unfold commandDispatch
  apply runTextHandler_not_mem
  · apply runTextHandler_not_mem
    · apply runTextHandler_not_mem
      · apply runTextHandler_not_mem
        · apply runTextHandler_not_mem
          · apply runTextHandler_not_mem
            · simp
            · intro s; simp
          · intro s; simp
        · intro s; simp
      · intro s
        split <;> simp
    · intro s
      split <;> simp
  · intro s
    split_ifs <;> simp

theorem handleMessage_no_dead (isAdminCaller : Bool) (st : Option StateData) (text : String)
    (db : DB) (qerr : Nat → Bool) (grand : Nat → Nat) (mrand : Nat → Nat → Nat) :
    Effect.deadBranchStub ∉ (handleMessage isAdminCaller st text db qerr grand mrand).2.2 := by
  unfold handleMessage
  repeat' split
  all_goals try simp_all
  split
  · simp
  · split <;> simp

/-- C9: the second `awaiting_num_groups` handler (bot.js lines 777-874) is
dead code — for every inbound message, admin flag, state and database, the
first `awaiting_num_groups` branch of the same `if`/`else if` chain matches
first, so the stub branch's behaviour (`deadBranchStub`) is never produced. -/
theorem C9_second_num_groups_handler_dead (isAdminCaller : Bool) (st : Option StateData)
    (text : String) (db : DB) (qerr : Nat → Bool) (grand : Nat → Nat)
    (mrand : Nat → Nat → Nat) :
    Effect.deadBranchStub ∉ (botStep isAdminCaller st text db qerr grand mrand).2.2 := by
  unfold botStep
  intro hmem
  rcases List.mem_append.mp hmem with hmem | hmem
  · exact handleMessage_no_dead isAdminCaller st text db qerr grand mrand hmem
  · exact commandDispatch_no_dead isAdminCaller _ text _ hmem

/-! ### C6: restriction parsing -/

/-- The claim's per-line validity: after trimming, the line splits on the
comma into exactly two non-empty trimmed names, both on the roster and
distinct. -/
def restrictionLineValid (validParticipants : List String) (line : String) : Bool :=
  match (jsSplit (jsTrim line) ',').map jsTrim with
  | [a, b] =>
    (a != "") && (b != "") && validParticipants.contains a &&
      validParticipants.contains b && (a != b)
  | _ => false

theorem parseRestrictionLines_sound (vp : List String) :
    ∀ (ls : List String) (rs : List (String × String)),
      parseRestrictionLines vp ls = some rs →
      List.Forall₂
        (fun l p => restrictionLineValid vp l = true ∧
          (jsSplit (jsTrim l) ',').map jsTrim = [p.1, p.2])
        (ls.filter (fun l => jsTrim l != "")) rs
  | [], rs, h => by
    simp only [parseRestrictionLines, Option.some.injEq] at h
    subst h
    simp
  | l :: rest, rs, h => by
    simp only [parseRestrictionLines] at h
    by_cases ht : jsTrim l = ""
    · rw [if_pos ht] at h
      simpa [List.filter_cons, ht] using parseRestrictionLines_sound vp rest rs h
    · rw [if_neg ht] at h
      by_cases hlen2 : ((jsSplit (jsTrim l) ',').map jsTrim).length ≠ 2
      · rw [if_pos hlen2] at h
        exact Option.noConfusion h
      rw [if_neg hlen2] at h
      obtain ⟨a, b, hab2⟩ := List.length_eq_two.mp (not_not.mp hlen2)
      rw [hab2] at h
      simp only [List.getD_cons_zero, List.getD_cons_succ] at h
      by_cases ha : a = ""
      · rw [if_pos (by simp [ha])] at h
        exact Option.noConfusion h
      by_cases hb : b = ""
      · rw [if_pos (by simp [hb])] at h
        exact Option.noConfusion h
      rw [if_neg (by simp [ha, hb])] at h
      by_cases hca : a ∈ vp
      case neg =>
        rw [if_pos (by simp [hca])] at h
        exact Option.noConfusion h
      by_cases hcb : b ∈ vp
      case neg =>
        rw [if_pos (by simp [hcb])] at h
        exact Option.noConfusion h
      rw [if_neg (by simp [hca, hcb])] at h
      by_cases hab : a = b
      · rw [if_pos hab] at h
        exact Option.noConfusion h
      rw [if_neg hab] at h
      rcases Option.map_eq_some'.mp h with ⟨rs', hrec, hrs⟩
      subst hrs
      rw [List.filter_cons_of_pos (by simp [ht])]
      exact List.Forall₂.cons
        ⟨by simp [restrictionLineValid, hab2, ha, hb, hca, hcb, hab], hab2⟩
        (parseRestrictionLines_sound vp rest rs' hrec)

theorem parseRestrictionLines_none_iff (vp : List String) :
    ∀ ls : List String,
      parseRestrictionLines vp ls = none ↔
        ∃ l ∈ ls, jsTrim l ≠ "" ∧ restrictionLineValid vp l = false
  | [] => by simp [parseRestrictionLines]
  | l :: rest => by
    have ih := parseRestrictionLines_none_iff vp rest
    simp only [parseRestrictionLines]
    by_cases ht : jsTrim l = ""
    · rw [if_pos ht, ih]
      constructor
      · rintro ⟨x, hx, hxt, hxv⟩
        exact ⟨x, List.mem_cons_of_mem l hx, hxt, hxv⟩
      · rintro ⟨x, hx, hxt, hxv⟩
        rcases List.mem_cons.mp hx with hx | hx
        · exact absurd (hx ▸ ht) hxt
        · exact ⟨x, hx, hxt, hxv⟩
    · rw [if_neg ht]
      by_cases hlen2 : ((jsSplit (jsTrim l) ',').map jsTrim).length ≠ 2
      · rw [if_pos hlen2]
        refine iff_of_true rfl ⟨l, List.mem_cons_self l rest, ht, ?_⟩
        rcases hm : (jsSplit (jsTrim l) ',').map jsTrim with - | ⟨a, - | ⟨b, - | ⟨c, tl⟩⟩⟩
        · simp [restrictionLineValid, hm]
        · simp [restrictionLineValid, hm]
        · exact absurd (by simp [hm]) hlen2
        · simp [restrictionLineValid, hm]
      rw [if_neg hlen2]
      obtain ⟨a, b, hab2⟩ := List.length_eq_two.mp (not_not.mp hlen2)
      rw [hab2]
      simp only [List.getD_cons_zero, List.getD_cons_succ]
      by_cases ha : a = ""
      · rw [if_pos (by simp [ha])]
        exact iff_of_true rfl ⟨l, List.mem_cons_self l rest, ht,
          by simp [restrictionLineValid, hab2, ha]⟩
      by_cases hb : b = ""
      · rw [if_pos (by simp [hb])]
        exact iff_of_true rfl ⟨l, List.mem_cons_self l rest, ht,
          by simp [restrictionLineValid, hab2, hb]⟩
      rw [if_neg (by simp [ha, hb])]
      by_cases hca : a ∈ vp
      case neg =>
        rw [if_pos (by simp [hca])]
        exact iff_of_true rfl ⟨l, List.mem_cons_self l rest, ht,
          by simp [restrictionLineValid, hab2, ha, hb, hca]⟩
      by_cases hcb : b ∈ vp
      case neg =>
        rw [if_pos (by simp [hcb])]
        exact iff_of_true rfl ⟨l, List.mem_cons_self l rest, ht,
          by simp [restrictionLineValid, hab2, ha, hb, hca, hcb]⟩
      rw [if_neg (by simp [hca, hcb])]
      by_cases hab : a = b
      · rw [if_pos hab]
        exact iff_of_true rfl ⟨l, List.mem_cons_self l rest, ht,
          by simp [restrictionLineValid, hab2, ha, hb, hca, hcb, hab]⟩
      rw [if_neg hab]
      have hvalid : restrictionLineValid vp l = true := by
        simp [restrictionLineValid, hab2, ha, hb, hca, hcb, hab]
      rw [Option.map_eq_none', ih]
      constructor
      · rintro ⟨x, hx, hxt, hxv⟩
        exact ⟨x, List.mem_cons_of_mem l hx, hxt, hxv⟩
      · rintro ⟨x, hx, hxt, hxv⟩
        rcases List.mem_cons.mp hx with hx | hx
        · subst hx
          exact absurd hvalid (by simp [hxv])
        · exact ⟨x, hx, hxt, hxv⟩

/-- C6 counterexample: a whitespace-only input (5001 blanks) is rejected
outright (`none`) rather than mapped to the empty restriction list, because
the 5000-character length cap fires before the whitespace shortcut. -/
theorem C6_counterexample :
    (∀ c ∈ (String.mk (List.replicate 5001 ' ')).data, c.isWhitespace) ∧
    validateRestrictionsInput (String.mk (List.replicate 5001 ' ')) ["Alice"] = none := by
  constructor
  · intro c hc
    have hc' : c = ' ' := List.eq_of_mem_replicate hc
    subst hc'
    decide
  · have hne : String.mk (List.replicate 5001 ' ') ≠ "" := by decide
    have hlen : (String.mk (List.replicate 5001 ' ')).length > MAX_RESTRICTIONS_INPUT_LENGTH := by
      show 5000 < (List.replicate 5001 ' ').length
      rw [List.length_replicate]
      omega
    unfold validateRestrictionsInput
    rw [if_neg hne, if_pos hlen]

/-- C6 (amended): for every input within the 5000-character cap,
`validateRestrictionsInput` maps the token `none` in any letter case and
empty or whitespace-only input to the empty restriction list; any other input
yields exactly the trimmed comma-separated pair of each non-empty line, and
the whole input is rejected (`none`, nothing delivered) exactly when some
non-empty line fails to split into two non-empty, distinct roster names.
(Inputs beyond the cap are rejected outright, even when whitespace-only or
entirely well-formed.) -/
theorem C6_restrictions_spec (input : String) (vp : List String)
    (hlen : input.length ≤ MAX_RESTRICTIONS_INPUT_LENGTH) :
    ((input = "" ∨ jsToLower (jsTrim input) = "none" ∨ jsTrim input = "") →
        validateRestrictionsInput input vp = some []) ∧
    (¬ (input = "" ∨ jsToLower (jsTrim input) = "none" ∨ jsTrim input = "") →
      (∀ rs, validateRestrictionsInput input vp = some rs →
        List.Forall₂ (fun l p => restrictionLineValid vp l = true ∧
            (jsSplit (jsTrim l) ',').map jsTrim = [p.1, p.2])
          ((jsSplit (jsTrim input) '\n').filter (fun l => jsTrim l != "")) rs) ∧
      (validateRestrictionsInput input vp = none ↔
        ∃ l ∈ jsSplit (jsTrim input) '\n',
          jsTrim l ≠ "" ∧ restrictionLineValid vp l = false)) := by
  have hnotlong : ¬ (input.length > MAX_RESTRICTIONS_INPUT_LENGTH) := by omega
  constructor
  · intro h
    by_cases h0 : input = ""
    · simp [validateRestrictionsInput, h0]
    · rcases h with h | h | h
      · exact absurd h h0
      · unfold validateRestrictionsInput
        rw [if_neg h0, if_neg hnotlong, if_pos (by simp [h])]
      · unfold validateRestrictionsInput
        rw [if_neg h0, if_neg hnotlong, if_pos (by simp [h])]
  · intro hns
    push_neg at hns
    obtain ⟨h0, h1, h2⟩ := hns
    unfold validateRestrictionsInput
    rw [if_neg h0, if_neg hnotlong, if_neg (by simp [h1, h2])]
    exact ⟨fun rs h => parseRestrictionLines_sound vp _ rs h,
           parseRestrictionLines_none_iff vp _⟩

/-- Witness for C6 at the spec's own example input and roster. -/
theorem C6_witness :
    List.Forall₂ (fun l p => restrictionLineValid ["Alice", "Bob", "Carol", "Dave"] l = true ∧
        (jsSplit (jsTrim l) ',').map jsTrim = [p.1, p.2])
      ((jsSplit (jsTrim "Alice, Bob\nCarol, Dave") '\n').filter (fun l => jsTrim l != ""))
      [("Alice", "Bob"), ("Carol", "Dave")] :=
  ((C6_restrictions_spec "Alice, Bob\nCarol, Dave" ["Alice", "Bob", "Carol", "Dave"]
      (by decide)).2 (by decide)).1
    [("Alice", "Bob"), ("Carol", "Dave")] (by decide)

/-! ### C3: grouping -/

/-- With `base ≥ 1` (guaranteed when `N ≤ P`), the defensive zero-size bump
never fires: provided the remaining sizes exactly cover the rest of the list,
each slice is full-length and non-empty, and the slices concatenate back to
the remaining list. -/
theorem groupSlices_spec (shuffled : List String) (base rem : Nat) (hbase : 1 ≤ base) :
    ∀ (idxs : List Nat) (startIndex : Nat),
      startIndex + (idxs.map (sliceSize base rem)).sum = shuffled.length →
      (groupSlices shuffled base rem idxs startIndex).map List.length
          = idxs.map (sliceSize base rem) ∧
      (groupSlices shuffled base rem idxs startIndex).flatten = shuffled.drop startIndex
  | [], startIndex, hsum => by
    simp only [List.map_nil, List.sum_nil, Nat.add_zero] at hsum
    subst hsum
    simp [groupSlices, List.drop_length]
  | i :: idxs, startIndex, hsum => by
    simp only [List.map_cons, List.sum_cons] at hsum
    have hsz : 1 ≤ sliceSize base rem i := Nat.le_add_right_of_le hbase
    have hle : startIndex + sliceSize base rem i ≤ shuffled.length := by omega
    have ihsum : (startIndex + sliceSize base rem i) + (idxs.map (sliceSize base rem)).sum
        = shuffled.length := by omega
    have ih := groupSlices_spec shuffled base rem hbase idxs
      (startIndex + sliceSize base rem i) ihsum
    simp only [groupSlices]
    have hno : ¬ (sliceSize base rem i = 0 && 0 < shuffled.length) = true := by
      simp only [Bool.and_eq_true, decide_eq_true_eq]
      rintro ⟨h0, -⟩
      omega
    rw [if_neg hno]
    have hlentake : ((shuffled.drop startIndex).take (sliceSize base rem i)).length
        = sliceSize base rem i := by
      rw [List.length_take, List.length_drop]
      omega
    rw [if_pos (by rw [hlentake]; omega)]
    refine ⟨?_, ?_⟩
    · simp only [List.map_cons, hlentake, ih.1]
    · rw [List.flatten_cons, ih.2, List.drop_take_append_drop]

/-- Sum of the slice sizes over the loop indices. -/
theorem sliceSize_sum (base rem : Nat) :
    ∀ n : Nat, ((List.range n).map (sliceSize base rem)).sum = n * base + min rem n
  | 0 => by simp
  | n + 1 => by
    rw [List.range_succ, List.map_append, List.sum_append]
    rw [sliceSize_sum base rem n]
    simp only [List.map_cons, List.map_nil, List.sum_cons, List.sum_nil, sliceSize]
    rw [Nat.succ_mul]
    by_cases h : n < rem
    · rw [if_pos h]
      omega
    · rw [if_neg h]
      omega

/-- C3: for `1 ≤ N ≤ P`, `assignParticipantsToGroups` returns exactly `N`
groups whose concatenation is a permutation of the input, whose sizes are
`⌊P/N⌋` or `⌊P/N⌋+1` and sum to `P`, with the first `P mod N` groups in
iteration order being the larger ones. -/
theorem C3_grouping_partition (ps : List String) (n : Int) (rand : Nat → Nat) (k : Nat)
    (h1 : 1 ≤ n) (h2 : n ≤ (ps.length : Int)) :
    ∃ gs, assignParticipantsToGroups ps n rand k = .ok gs ∧
      (gs.length : Int) = n ∧
      gs.flatten.Perm ps ∧
      gs.map List.length =
        (List.range n.toNat).map
          (fun i => if i < ps.length % n.toNat then ps.length / n.toNat + 1
                    else ps.length / n.toNat) ∧
      (∀ g ∈ gs, g.length = ps.length / n.toNat ∨ g.length = ps.length / n.toNat + 1) ∧
      (gs.map List.length).sum = ps.length := by
  have hN0 : 0 < n.toNat := by omega
  have hNle : n.toNat ≤ ps.length := by omega
  have hlen0 : ps.length ≠ 0 := by omega
  have hbase : 1 ≤ ps.length / n.toNat := (Nat.one_le_div_iff hN0).mpr hNle
  have hrem : ps.length % n.toNat < n.toNat := Nat.mod_lt _ hN0
  unfold assignParticipantsToGroups
  rw [if_neg hlen0, if_neg (by omega), if_neg (by omega)]
  set shuffled := shuffle rand k ps with hshuf
  have hslen : shuffled.length = ps.length := shuffle_length rand k ps
  have hsum : 0 + ((List.range n.toNat).map
      (sliceSize (ps.length / n.toNat) (ps.length % n.toNat))).sum = shuffled.length := by
    rw [Nat.zero_add, sliceSize_sum, Nat.min_eq_left (Nat.le_of_lt hrem), hslen]
    have hdm := Nat.div_add_mod ps.length n.toNat
    omega
  obtain ⟨hmap, hjoin⟩ := groupSlices_spec shuffled (ps.length / n.toNat)
    (ps.length % n.toNat) hbase (List.range n.toNat) 0 hsum
  set gs0 := groupSlices shuffled (ps.length / n.toNat) (ps.length % n.toNat)
    (List.range n.toNat) 0 with hgs0
  have hpos : ∀ g ∈ gs0, 0 < g.length := by
    intro g hg
    have : g.length ∈ gs0.map List.length := List.mem_map_of_mem List.length hg
    rw [hmap] at this
    rcases List.mem_map.mp this with ⟨i, -, hi⟩
    simp only [sliceSize] at hi
    omega
  have hfilter : gs0.filter (fun g => decide (0 < g.length)) = gs0 :=
    List.filter_eq_self.mpr (fun g hg => by simpa using hpos g hg)
  refine ⟨gs0, congrArg Except.ok hfilter, ?_, ?_, ?_, ?_, ?_⟩
  · have : gs0.length = n.toNat := by
      have := congrArg List.length hmap
      simpa using this
    rw [this]
    omega
  · rw [hjoin, List.drop_zero]
    exact shuffle_perm rand k ps
  · rw [hmap]
    exact List.map_congr_left (fun i _ => by
      simp only [sliceSize]
      split <;> omega)
  · intro g hg
    have : g.length ∈ gs0.map List.length := List.mem_map_of_mem List.length hg
    rw [hmap] at this
    rcases List.mem_map.mp this with ⟨i, -, hi⟩
    simp only [sliceSize] at hi
    split at hi <;> omega
  · rw [hmap, sliceSize_sum, Nat.min_eq_left (Nat.le_of_lt hrem)]
    have hdm := Nat.div_add_mod ps.length n.toNat
    omega

/-- Witness for C3: five participants into two groups. -/
theorem C3_witness :
    ∃ gs, assignParticipantsToGroups ["A", "B", "C", "D", "E"] 2 (fun _ => 0) 0 = .ok gs ∧
      (gs.length : Int) = 2 ∧
      gs.flatten.Perm ["A", "B", "C", "D", "E"] ∧
      gs.map List.length =
        (List.range (2 : Int).toNat).map
          (fun i => if i < (5 : Nat) % (2 : Int).toNat then 5 / (2 : Int).toNat + 1
                    else 5 / (2 : Int).toNat) ∧
      (∀ g ∈ gs, g.length = 5 / (2 : Int).toNat ∨ g.length = 5 / (2 : Int).toNat + 1) ∧
      (gs.map List.length).sum = 5 :=
  C3_grouping_partition ["A", "B", "C", "D", "E"] 2 (fun _ => 0) 0 (by decide) (by decide)

/-! ### C1 and C4: restricted matching -/

/-- The pair the matching loop derives at index `i`:
`giver = shuffledGroup[i]`, `receiver = shuffledGroup[(i + 1) % n]`. -/
def cyclicPair (shuffledGroup : List String) (i : Nat) : String × String :=
  (shuffledGroup.getD i "", shuffledGroup.getD ((i + 1) % shuffledGroup.length) "")

/-- What the claims require of a returned match list: one pair per member,
givers a permutation of the group, receivers a permutation of the group, no
self-pair and no restricted pair. -/
def validAssignment (group : List String) (restr : List (String × String))
    (ms : List (String × String)) : Prop :=
  ms.length = group.length ∧
  (ms.map Prod.fst).Perm group ∧
  (ms.map Prod.snd).Perm group ∧
  (∀ m ∈ ms, m.1 ≠ m.2 ∧ isRestricted m.1 m.2 restr = false)

theorem buildMatches_some (s : List String) (restr : List (String × String)) :
    ∀ (idxs : List Nat) (acc ms : List (String × String)),
      buildMatches s restr idxs acc = some ms →
      ms = acc ++ idxs.map (cyclicPair s) ∧
      ∀ i ∈ idxs,
        s.getD i "" ≠ s.getD ((i + 1) % s.length) "" ∧
        isRestricted (s.getD i "") (s.getD ((i + 1) % s.length) "") restr = false
  | [], acc, ms, h => by
    simp only [buildMatches, Option.some.injEq] at h
    subst h
    simp
  | i :: idxs, acc, ms, h => by
    simp only [buildMatches] at h
    by_cases hself : s.getD i "" = s.getD ((i + 1) % s.length) ""
    · rw [if_pos hself] at h
      exact Option.noConfusion h
    rw [if_neg hself] at h
    by_cases hres : isRestricted (s.getD i "") (s.getD ((i + 1) % s.length) "") restr
    · rw [if_pos hres] at h
      exact Option.noConfusion h
    rw [if_neg hres] at h
    obtain ⟨hms, hrest⟩ := buildMatches_some s restr idxs
      (acc ++ [(s.getD i "", s.getD ((i + 1) % s.length) "")]) ms h
    refine ⟨by simpa [cyclicPair] using hms, ?_⟩
    intro j hj
    rcases List.mem_cons.mp hj with hj | hj
    · subst hj
      exact ⟨hself, by simpa using hres⟩
    · exact hrest j hj

theorem assignLoop_ok (group : List String) (restr : List (String × String))
    (rand : Nat → Nat) :
    ∀ (fuel k : Nat) (ms : List (String × String)),
      assignLoop group restr rand fuel k = .ok ms →
      ∃ j, buildMatches (shuffle rand j group) restr (List.range group.length) [] = some ms
  | 0, _, _, h => Except.noConfusion h
  | fuel + 1, k, ms, h => by
    simp only [assignLoop] at h
    rcases hb : buildMatches (shuffle rand k group) restr (List.range group.length) [] with
      - | pm
    · rw [hb] at h
      exact assignLoop_ok group restr rand fuel (k + (group.length - 1)) ms h
    · rw [hb] at h
      exact ⟨k, by rw [hb, Except.ok.inj h]⟩

theorem assignLoop_error (group : List String) (restr : List (String × String))
    (rand : Nat → Nat) :
    ∀ (fuel k : Nat) (e : BotError),
      assignLoop group restr rand fuel k = .error e →
      e = .infeasible group ∧
      ∀ j < fuel, buildMatches (shuffle rand (k + j * (group.length - 1)) group) restr
        (List.range group.length) [] = none
  | 0, _, e, h => ⟨(Except.error.inj h).symm, fun j hj => absurd hj (Nat.not_lt_zero j)⟩
  | fuel + 1, k, e, h => by
    simp only [assignLoop] at h
    rcases hb : buildMatches (shuffle rand k group) restr (List.range group.length) [] with
      - | pm
    · rw [hb] at h
      obtain ⟨he, hall⟩ := assignLoop_error group restr rand fuel (k + (group.length - 1)) e h
      refine ⟨he, ?_⟩
      intro j hj
      rcases j with - | j
      · simpa using hb
      · have := hall j (by omega)
        have harith : k + (group.length - 1) + j * (group.length - 1)
            = k + (j + 1) * (group.length - 1) := by
          rw [Nat.succ_mul]
          omega
        rwa [harith] at this
    · rw [hb] at h
      exact Except.noConfusion h

theorem isRestricted_false_not_mem {g r : String} {restr : List (String × String)}
    (h : isRestricted g r restr = false) : (g, r) ∉ restr ∧ (r, g) ∉ restr := by
  simp only [isRestricted, List.any_eq_false] at h
  constructor
  · intro hm
    have := h _ hm
    simp at this
  · intro hm
    have := h _ hm
    simp at this

/-- Reading a list off by indices. -/
theorem map_getD_range (s : List String) :
    (List.range s.length).map (fun i => s.getD i "") = s := by
  apply List.ext_getElem
  · simp
  · intro i h1 h2
    simp only [List.getElem_map, List.getElem_range]
    exact List.getD_eq_getElem s "" (by simpa using h2)

/-- Reading a list off cyclically shifted by one is its rotation. -/
theorem map_getD_range_rotate (s : List String) (hs : 0 < s.length) :
    (List.range s.length).map (fun i => s.getD ((i + 1) % s.length) "") = s.rotate 1 := by
  apply List.ext_getElem
  · simp
  · intro i h1 h2
    simp only [List.getElem_map, List.getElem_range]
    rw [List.getD_eq_getElem s "" (Nat.mod_lt _ hs), List.getElem_rotate]

/-- Core lemma shared by the matching claims: whenever `assignSecretAngels`
succeeds on a duplicate-free group of size at least two, the result is a full
cyclic assignment respecting all constraints. -/
theorem assign_ok_props (group : List String) (restr : List (String × String))
    (rand : Nat → Nat) (ms : List (String × String))
    (hlen : 2 ≤ group.length)
    (hok : assignSecretAngels group restr rand = .ok ms) :
    validAssignment group restr ms := by
  unfold assignSecretAngels at hok
  rw [if_neg (by omega)] at hok
  obtain ⟨j, hb⟩ := assignLoop_ok group restr rand 100 0 ms hok
  set s := shuffle rand j group with hsdef
  have hperm : s.Perm group := shuffle_perm rand j group
  have hslen : s.length = group.length := hperm.length_eq
  have hs0 : 0 < s.length := by omega
  obtain ⟨hms, hprops⟩ := buildMatches_some s restr (List.range group.length) [] ms hb
  rw [List.nil_append] at hms
  have hfst : ms.map Prod.fst = s := by
    rw [hms, List.map_map]
    have : (Prod.fst ∘ cyclicPair s) = fun i => s.getD i "" := rfl
    rw [this, ← hslen, map_getD_range]
  have hsnd : ms.map Prod.snd = s.rotate 1 := by
    rw [hms, List.map_map]
    have : (Prod.snd ∘ cyclicPair s) = fun i => s.getD ((i + 1) % s.length) "" := rfl
    rw [this, ← hslen, map_getD_range_rotate s hs0]
  refine ⟨?_, ?_, ?_, ?_⟩
  · rw [hms, List.length_map, List.length_range]
  · rw [hfst]
    exact hperm
  · rw [hsnd]
    exact (List.rotate_perm s 1).trans hperm
  · intro m hm
    rw [hms] at hm
    rcases List.mem_map.mp hm with ⟨i, hi, hcp⟩
    subst hcp
    exact hprops i hi

/-- C1: whenever `assignSecretAngels` returns normally on a group of `n ≥ 2`
distinct names, the result has exactly `n` pairs, every member appears
exactly once as giver and exactly once as receiver, no pair is a
self-assignment, and no pair occurs in either orientation in the restriction
set. -/
theorem C1_assignment_valid (group : List String) (restr : List (String × String))
    (rand : Nat → Nat) (ms : List (String × String))
    (hnd : group.Nodup) (hlen : 2 ≤ group.length)
    (hok : assignSecretAngels group restr rand = .ok ms) :
    ms.length = group.length ∧
    (ms.map Prod.fst).Perm group ∧
    (ms.map Prod.snd).Perm group ∧
    (∀ x ∈ group, (ms.map Prod.fst).count x = 1 ∧ (ms.map Prod.snd).count x = 1) ∧
    (∀ m ∈ ms, m.1 ≠ m.2 ∧ (m.1, m.2) ∉ restr ∧ (m.2, m.1) ∉ restr ∧
      isRestricted m.1 m.2 restr = false) := by
  obtain ⟨hlen', hfst, hsnd, hpairs⟩ := assign_ok_props group restr rand ms hlen hok
  refine ⟨hlen', hfst, hsnd, ?_, ?_⟩
  · intro x hx
    constructor
    · rw [hfst.count_eq]
      exact List.count_eq_one_of_mem hnd hx
    · rw [hsnd.count_eq]
      exact List.count_eq_one_of_mem hnd hx
  · intro m hm
    obtain ⟨hne, hres⟩ := hpairs m hm
    obtain ⟨h1, h2⟩ := isRestricted_false_not_mem hres
    exact ⟨hne, h1, h2, hres⟩

/-- Witness for C1: a two-member group with no restrictions, evaluated
concretely. -/
theorem C1_witness :
    ∃ ms, assignSecretAngels ["Alice", "Bob"] [] (fun _ => 0) = .ok ms ∧
      ms.length = 2 ∧
      (ms.map Prod.fst).Perm ["Alice", "Bob"] ∧
      (∀ m ∈ ms, m.1 ≠ m.2) := by
  refine ⟨[("Bob", "Alice"), ("Alice", "Bob")], rfl, ?_⟩
  have h := C1_assignment_valid ["Alice", "Bob"] [] (fun _ => 0)
    [("Bob", "Alice"), ("Alice", "Bob")] (by decide) (by decide) rfl
  exact ⟨h.1, h.2.1, fun m hm => (h.2.2.2.2 m hm).1⟩

/-- C4 counterexample: the group `[A, B, C, D]` with the single restriction
`(A, B)` admits a valid cyclic rotation (`[A, C, B, D]`), so the restriction
set does not cover every rotation; yet with an entropy source that keeps
producing the rotation `[B, C, D, A]` the function exhausts all 100 attempts
and throws `AssignmentInfeasible` naming the group. -/
theorem C4_counterexample :
    (∃ c : List String, c.Perm ["A", "B", "C", "D"] ∧
      (buildMatches c [("A", "B")] (List.range c.length) []).isSome) ∧
    (["A", "B", "C", "D"] : List String).Nodup ∧
    assignSecretAngels ["A", "B", "C", "D"] [("A", "B")] (fun _ => 0) =
      .error (.infeasible ["A", "B", "C", "D"]) := by
  refine ⟨⟨["A", "C", "B", "D"], by decide, by decide⟩, by decide, ?_⟩
  rfl

/-- C4 (amended): on a duplicate-free group of size ≥ 2, `assignSecretAngels`
either returns, within the 100-attempt bound, a permutation with zero fixed
points and zero restricted pairs, or fails with `AssignmentInfeasible` naming
the offending group — the failure case occurring exactly when every one of
the 100 sampled rotations hits a restriction, which a restriction set not
covering every rotation makes improbable but (for an adversarial entropy
stream) not impossible. -/
theorem C4_retry_dichotomy (group : List String) (restr : List (String × String))
    (rand : Nat → Nat) (hlen : 2 ≤ group.length) :
    (∃ ms, assignSecretAngels group restr rand = .ok ms ∧ validAssignment group restr ms) ∨
    (assignSecretAngels group restr rand = .error (.infeasible group) ∧
      ∀ j < 100, buildMatches (shuffle rand (j * (group.length - 1)) group) restr
        (List.range group.length) [] = none) := by
  rcases hres : assignSecretAngels group restr rand with e | ms
  · right
    unfold assignSecretAngels at hres
    rw [if_neg (by omega)] at hres
    obtain ⟨he, hall⟩ := assignLoop_error group restr rand 100 0 e hres
    subst he
    exact ⟨rfl, fun j hj => by simpa using hall j hj⟩
  · left
    exact ⟨ms, rfl, assign_ok_props group restr rand ms hlen hres⟩

/-- Witness for C4's amended dichotomy at a concrete group. -/
theorem C4_witness :
    (∃ ms, assignSecretAngels ["Alice", "Bob"] [] (fun _ => 0) = .ok ms ∧
      validAssignment ["Alice", "Bob"] [] ms) ∨
    (assignSecretAngels ["Alice", "Bob"] [] (fun _ => 0) =
        .error (.infeasible ["Alice", "Bob"]) ∧
      ∀ j < 100, buildMatches (shuffle (fun _ => 0) (j * (["Alice", "Bob"].length - 1))
          ["Alice", "Bob"]) [] (List.range ["Alice", "Bob"].length) [] = none) :=
  C4_retry_dichotomy ["Alice", "Bob"] [] (fun _ => 0) (by decide)

/-! ### C8: wishlist upsert -/

theorem upsertParticipant_fresh (db : DB) (name wishlist : String)
    (h : ∀ row ∈ db.participants, row.2.1 ≠ name) :
    (upsertParticipant db name wishlist).participants
      = db.participants ++ [(db.pseq + 1, name, wishlist)] := by
  unfold upsertParticipant
  rw [if_neg]
  intro hany
  rcases List.any_eq_true.mp hany with ⟨row, hrow, heq⟩
  exact h row hrow (by simpa using heq)

theorem upsertParticipant_existing (db : DB) (name wishlist : String)
    (h : ∃ row ∈ db.participants, row.2.1 = name) :
    (upsertParticipant db name wishlist).participants
        = db.participants.map
            (fun row => if row.2.1 = name then (row.1, name, wishlist) else row) ∧
      (upsertParticipant db name wishlist).participants.length
        = db.participants.length := by
  unfold upsertParticipant
  rcases h with ⟨row, hrow, heq⟩
  rw [if_pos (List.any_eq_true.mpr ⟨row, hrow, by simpa using heq⟩)]
  exact ⟨rfl, by simp⟩

/-- C8: in `awaiting_wishlist`, a reply whose lowercase form is `skip` stores
an empty wishlist and any other reply stores the sanitized wishlist; the
participant is upserted by the captured name — inserted when fresh, otherwise
only that row's wishlist is overwritten with no duplicate row — and the
state entry is cleared whether the persistence query succeeds or fails. -/
theorem C8_wishlist_upsert (isAdminCaller : Bool) (sd : StateData) (n text : String)
    (db : DB) (qerr : Nat → Bool) (grand : Nat → Nat) (mrand : Nat → Nat → Nat)
    (hst : sd.state = "awaiting_wishlist") (hn : sd.name = some n)
    (hcmd : startsWithSlash text = false) :
    (handleMessage isAdminCaller (some sd) text db qerr grand mrand).1 = none ∧
    (qerr 0 = true →
      (handleMessage isAdminCaller (some sd) text db qerr grand mrand).2.1 = db) ∧
    (qerr 0 = false →
      (handleMessage isAdminCaller (some sd) text db qerr grand mrand).2.1 =
        upsertParticipant db n
          (if jsToLower text = "skip" then "" else validateWishlist text) ∧
      ((∀ row ∈ db.participants, row.2.1 ≠ n) →
        (handleMessage isAdminCaller (some sd) text db qerr grand mrand).2.1.participants
          = db.participants ++
            [(db.pseq + 1, n, if jsToLower text = "skip" then "" else validateWishlist text)]) ∧
      ((∃ row ∈ db.participants, row.2.1 = n) →
        (handleMessage isAdminCaller (some sd) text db qerr grand mrand).2.1.participants
            = db.participants.map (fun row =>
                if row.2.1 = n then
                  (row.1, n, if jsToLower text = "skip" then "" else validateWishlist text)
                else row) ∧
        (handleMessage isAdminCaller (some sd) text db qerr grand mrand).2.1.participants.length
          = db.participants.length)) := by
  have hbody : handleMessage isAdminCaller (some sd) text db qerr grand mrand =
      if qerr 0 then (none, db, [Effect.registrationError])
      else (none,
        upsertParticipant db n
          (if jsToLower text = "skip" then "" else validateWishlist text),
        [Effect.registered]) := by
    simp [handleMessage, hcmd, hst, hn]
  rw [hbody]
  by_cases hq : qerr 0
  · rw [if_pos hq]
    exact ⟨rfl, fun _ => rfl, fun hq0 => absurd hq0 (by simp [hq])⟩
  · rw [if_neg hq]
    refine ⟨rfl, fun hq1 => absurd hq1 (by simp_all), fun _ => ⟨rfl, ?_, ?_⟩⟩
    · intro hfresh
      exact upsertParticipant_fresh db n _ hfresh
    · intro hex
      exact upsertParticipant_existing db n _ hex

/-- Witness for C8: registering `Alice` with reply `skip` against an empty
table inserts `(1, Alice, "")` and clears the state. -/
theorem C8_witness :
    (handleMessage true
        (some { state := "awaiting_wishlist", name := some "Alice" }) "skip"
        { participants := [], pseq := 0, groups := [], members := [], assignments := [] }
        (fun _ => false) (fun _ => 0) (fun _ _ => 0)).1 = none ∧
    (handleMessage true
        (some { state := "awaiting_wishlist", name := some "Alice" }) "skip"
        { participants := [], pseq := 0, groups := [], members := [], assignments := [] }
        (fun _ => false) (fun _ => 0) (fun _ _ => 0)).2.1.participants
      = [(1, "Alice", "")] := by
  have h := C8_wishlist_upsert true { state := "awaiting_wishlist", name := some "Alice" }
    "Alice" "skip"
    { participants := [], pseq := 0, groups := [], members := [], assignments := [] }
    (fun _ => false) (fun _ => 0) (fun _ _ => 0) rfl rfl (by decide)
  refine ⟨h.1, ?_⟩
  have h3 := (h.2.2 rfl).2.1 (by simp)
  rw [h3]
  decide

/-! ### C2: all-or-nothing orchestration

Invariants threaded through the orchestration run: no operation except
`COMMIT` touches the visible database, the working copy stays open, and the
run's inserts never touch the participants table. -/

theorem applyQuery_some (c : TxConn) (f : DB → DB) (hp : c.pending.isSome) :
    (applyQuery c f).visible = c.visible ∧ (applyQuery c f).pending.isSome ∧
    pendingOf (applyQuery c f) = f (pendingOf c) := by
  rcases hc : c.pending with - | p
  · rw [hc] at hp
    exact absurd hp (by simp)
  · unfold applyQuery pendingOf
    rw [hc]
    simp

/-- A run step leaves the committed database untouched on every failure
path. -/
def errInv (c : TxConn) (r : Except OrchSt OrchSt) : Prop :=
  ∀ c' k', r = .error (c', k') → c'.visible = c.visible

/-- A successful run step leaves the committed database untouched, keeps the
transaction open, and never writes the participants table of the working
copy. -/
def okInv (c : TxConn) (r : Except OrchSt OrchSt) : Prop :=
  ∀ c' k', r = .ok (c', k') →
    c'.visible = c.visible ∧ c'.pending.isSome = true ∧
    (pendingOf c').participants = (pendingOf c).participants ∧
    (pendingOf c').pseq = (pendingOf c).pseq

theorem errInv_mono {c0 c : TxConn} {r : Except OrchSt OrchSt}
    (h : errInv c r) (hv : c.visible = c0.visible) : errInv c0 r := by
  intro c' k' he
  rw [h c' k' he, hv]

theorem okInv_mono {c0 c : TxConn} {r : Except OrchSt OrchSt}
    (h : okInv c r) (hv : c.visible = c0.visible)
    (hpart : (pendingOf c).participants = (pendingOf c0).participants)
    (hpseq : (pendingOf c).pseq = (pendingOf c0).pseq) : okInv c0 r := by
  intro c' k' he
  obtain ⟨h1, h2, h3, h4⟩ := h c' k' he
  exact ⟨h1.trans hv, h2, h3.trans hpart, h4.trans hpseq⟩

/-- Propagate an error, otherwise continue: the shape of every
`match ... with | .error st => .error st | .ok st1 => ...` step in the run. -/
def exceptChain (E : Except OrchSt OrchSt) (F : OrchSt → Except OrchSt OrchSt) :
    Except OrchSt OrchSt :=
  match E with
  | .error st => .error st
  | .ok st1 => F st1

/-- Chaining two run steps preserves both invariants. -/
theorem chain_inv {E : Except OrchSt OrchSt} {F : OrchSt → Except OrchSt OrchSt} {c : TxConn}
    (hEe : errInv c E) (hEo : okInv c E)
    (hF : ∀ st, E = .ok st → st.1.pending.isSome = true →
      errInv st.1 (F st) ∧ okInv st.1 (F st)) :
    errInv c (exceptChain E F) ∧ okInv c (exceptChain E F) := by
  rcases E with st | st1
  · exact ⟨hEe, fun c' k' h => Except.noConfusion h⟩
  · obtain ⟨hv, hps, hpart, hpseq⟩ := hEo st1.1 st1.2 rfl
    obtain ⟨hFe, hFo⟩ := hF st1 rfl hps
    exact ⟨errInv_mono hFe hv, okInv_mono hFo hv hpart hpseq⟩

theorem rollback_errInv {c c0 : TxConn} (hv : c.visible = c0.visible) (k : Nat) :
    errInv c0 (Except.error (txRollback c, k) : Except OrchSt OrchSt) := by
  intro c' k' h
  obtain ⟨h1, -⟩ := Prod.mk.injEq .. ▸ Except.error.inj h
  subst h1
  exact hv

theorem error_okInv {c0 : TxConn} (st : OrchSt) :
    okInv c0 (Except.error st : Except OrchSt OrchSt) :=
  fun _ _ h => Except.noConfusion h

theorem insertMembers_inv (qerr : Nat → Bool) (pmap : String → Option Nat) (groupId : Nat) :
    ∀ (names : List String) (c : TxConn) (k : Nat), c.pending.isSome = true →
      errInv c (insertMembers qerr pmap groupId names (c, k)) ∧
      okInv c (insertMembers qerr pmap groupId names (c, k))
  | [], c, k, hp => by
    refine ⟨fun c' k' h => Except.noConfusion h, ?_⟩
    intro c' k' h
    obtain ⟨h1, h2⟩ := Prod.mk.injEq .. ▸ Except.ok.inj h
    subst h1
    exact ⟨rfl, hp, rfl, rfl⟩
  | name :: rest, c, k, hp => by
    rcases hpm : pmap name with - | pid
    · simp only [insertMembers, hpm]
      exact ⟨rollback_errInv rfl k, error_okInv _⟩
    · simp only [insertMembers, hpm]
      by_cases hq : qerr k
      · rw [if_pos hq]
        exact ⟨rollback_errInv rfl (k + 1), error_okInv _⟩
      · rw [if_neg hq]
        obtain ⟨hv, hps, hpd⟩ := applyQuery_some c
          (fun db => { db with members := db.members ++ [(groupId, pid)] }) hp
        obtain ⟨ihe, iho⟩ := insertMembers_inv qerr pmap groupId rest
          (applyQuery c (fun db => { db with members := db.members ++ [(groupId, pid)] }))
          (k + 1) hps
        exact ⟨errInv_mono ihe hv,
               okInv_mono iho hv (by rw [hpd]) (by rw [hpd])⟩

theorem insertAssignments_inv (qerr : Nat → Bool) (pmap : String → Option Nat)
    (groupId : Nat) :
    ∀ (ms : List (String × String)) (c : TxConn) (k : Nat), c.pending.isSome = true →
      errInv c (insertAssignments qerr pmap groupId ms (c, k)) ∧
      okInv c (insertAssignments qerr pmap groupId ms (c, k))
  | [], c, k, hp => by
    refine ⟨fun c' k' h => Except.noConfusion h, ?_⟩
    intro c' k' h
    obtain ⟨h1, h2⟩ := Prod.mk.injEq .. ▸ Except.ok.inj h
    subst h1
    exact ⟨rfl, hp, rfl, rfl⟩
  | (giver, receiver) :: rest, c, k, hp => by
    rcases hpg : pmap giver with - | giverId
    · simp only [insertAssignments, hpg]
      exact ⟨rollback_errInv rfl k, error_okInv _⟩
    · rcases hpr : pmap receiver with - | receiverId
      · simp only [insertAssignments, hpg, hpr]
        exact ⟨rollback_errInv rfl k, error_okInv _⟩
      · simp only [insertAssignments, hpg, hpr]
        by_cases hq : qerr k
        · rw [if_pos hq]
          exact ⟨rollback_errInv rfl (k + 1), error_okInv _⟩
        · rw [if_neg hq]
          obtain ⟨hv, hps, hpd⟩ := applyQuery_some c
            (fun db =>
              { db with assignments := db.assignments ++ [(groupId, giverId, receiverId)] }) hp
          obtain ⟨ihe, iho⟩ := insertAssignments_inv qerr pmap groupId rest
            (applyQuery c
              (fun db =>
                { db with assignments := db.assignments ++ [(groupId, giverId, receiverId)] }))
            (k + 1) hps
          exact ⟨errInv_mono ihe hv,
                 okInv_mono iho hv (by rw [hpd]) (by rw [hpd])⟩

theorem processGroups_inv (qerr : Nat → Bool) (pmap : String → Option Nat)
    (restrictions : List (String × String)) (mrand : Nat → Nat → Nat) :
    ∀ (gs : List (List String)) (i : Nat) (c : TxConn) (k : Nat), c.pending.isSome = true →
      errInv c (processGroups qerr pmap restrictions mrand gs i (c, k)) ∧
      okInv c (processGroups qerr pmap restrictions mrand gs i (c, k))
  | [], i, c, k, hp => by
    refine ⟨fun c' k' h => Except.noConfusion h, ?_⟩
    intro c' k' h
    obtain ⟨h1, h2⟩ := Prod.mk.injEq .. ▸ Except.ok.inj h
    subst h1
    exact ⟨rfl, hp, rfl, rfl⟩
  | groupNames :: rest, i, c, k, hp => by
    by_cases hsmall : groupNames.length < 2
    · simp only [processGroups]
      rw [if_pos hsmall]
      exact processGroups_inv qerr pmap restrictions mrand rest (i + 1) c k hp
    rcases hasn : assignSecretAngels groupNames restrictions (mrand i) with e | matchList
    · simp only [processGroups, hasn]
      rw [if_neg hsmall]
      exact ⟨rollback_errInv rfl k, error_okInv _⟩
    simp only [processGroups, hasn]
    rw [if_neg hsmall]
    by_cases hzero : matchList.length = 0
    · rw [if_pos hzero]
      exact ⟨rollback_errInv rfl k, error_okInv _⟩
    rw [if_neg hzero]
    by_cases hq : qerr k
    · rw [if_pos hq]
      exact ⟨rollback_errInv rfl (k + 1), error_okInv _⟩
    rw [if_neg hq]
    obtain ⟨hv1, hps1, hpd1⟩ := applyQuery_some c
      (fun db => { db with groups :=
        db.groups ++ [((pendingOf c).groups.length + 1,
          "Secret Angel Group " ++ toString (i + 1))] }) hp
    set c1 := applyQuery c
      (fun db => { db with groups :=
        db.groups ++ [((pendingOf c).groups.length + 1,
          "Secret Angel Group " ++ toString (i + 1))] }) with hc1
    obtain ⟨hme, hmo⟩ := insertMembers_inv qerr pmap ((pendingOf c).groups.length + 1)
      groupNames c1 (k + 1) hps1
    have hchain :
        errInv c1 (exceptChain
          (insertMembers qerr pmap ((pendingOf c).groups.length + 1) groupNames (c1, k + 1))
          (fun st1 => exceptChain
            (insertAssignments qerr pmap ((pendingOf c).groups.length + 1) matchList st1)
            (fun st2 => processGroups qerr pmap restrictions mrand rest (i + 1) st2))) ∧
        okInv c1 (exceptChain
          (insertMembers qerr pmap ((pendingOf c).groups.length + 1) groupNames (c1, k + 1))
          (fun st1 => exceptChain
            (insertAssignments qerr pmap ((pendingOf c).groups.length + 1) matchList st1)
            (fun st2 => processGroups qerr pmap restrictions mrand rest (i + 1) st2))) := by
      refine chain_inv hme hmo ?_
      intro st1 hst1 hps2
      obtain ⟨hae, hao⟩ := insertAssignments_inv qerr pmap
        ((pendingOf c).groups.length + 1) matchList st1.1 st1.2 hps2
      refine chain_inv hae hao ?_
      intro st2 hst2 hps3
      exact processGroups_inv qerr pmap restrictions mrand rest (i + 1) st2.1 st2.2 hps3
    exact ⟨errInv_mono hchain.1 hv1,
           okInv_mono hchain.2 hv1 (by rw [hpd1]) (by rw [hpd1])⟩

/-- C2: an orchestration run started from `awaiting_restrictions` is
all-or-nothing — if any step fails (matching exhaustion, id-mapping miss or a
store error) the visible `Group`/`Membership`/`Assignment` tables are left
exactly as before the run; the participants table is never touched; and any
change to the visible database can only come from a fully successful,
committed run. -/
theorem C2_orchestration_rollback (qerr : Nat → Bool) (snapshot : List (Nat × String))
    (numGroups : Int) (restrictions : List (String × String)) (grand : Nat → Nat)
    (mrand : Nat → Nat → Nat) (db : DB) :
    ((orchestrate qerr snapshot numGroups restrictions grand mrand db).2 = false →
      (orchestrate qerr snapshot numGroups restrictions grand mrand db).1 = db) ∧
    (orchestrate qerr snapshot numGroups restrictions grand mrand db).1.participants
      = db.participants ∧
    (orchestrate qerr snapshot numGroups restrictions grand mrand db).1.pseq = db.pseq ∧
    ((orchestrate qerr snapshot numGroups restrictions grand mrand db).1 ≠ db →
      (orchestrate qerr snapshot numGroups restrictions grand mrand db).2 = true) := by
  have main :
      ((orchestrate qerr snapshot numGroups restrictions grand mrand db).2 = false →
        (orchestrate qerr snapshot numGroups restrictions grand mrand db).1 = db) ∧
      (orchestrate qerr snapshot numGroups restrictions grand mrand db).1.participants
        = db.participants ∧
      (orchestrate qerr snapshot numGroups restrictions grand mrand db).1.pseq = db.pseq := by
    by_cases hq0 : qerr 0
    · simp only [orchestrate, hq0, if_true]
      exact ⟨fun _ => rfl, rfl, rfl⟩
    rcases hasn : assignParticipantsToGroups (snapshot.map Prod.snd) numGroups grand 0
      with e | gs
    · simp only [orchestrate, hq0, Bool.false_eq_true, if_false, hasn]
      exact ⟨fun _ => rfl, rfl, rfl⟩
    have hps0 : (applyQuery (txBegin { visible := db, pending := none })
        truncateRunTables).pending.isSome = true := rfl
    obtain ⟨perr, pok⟩ := processGroups_inv qerr (rosterMap snapshot)
      restrictions mrand gs 0
      (applyQuery (txBegin { visible := db, pending := none }) truncateRunTables) 1 hps0
    rcases hrun : processGroups qerr (rosterMap snapshot) restrictions mrand gs 0
        (applyQuery (txBegin { visible := db, pending := none }) truncateRunTables, 1)
        with ⟨cE, kE⟩ | ⟨cO, kO⟩
    · simp only [orchestrate, hq0, Bool.false_eq_true, if_false, hasn, hrun]
      have hvE : cE.visible = db := perr cE kE hrun
      exact ⟨fun _ => hvE, by rw [hvE], by rw [hvE]⟩
    · obtain ⟨hvr, hpsr, hpartr, hpseqr⟩ := pok cO kO hrun
      have hvO : cO.visible = db := hvr
      by_cases hqc : qerr kO
      · simp only [orchestrate, hq0, Bool.false_eq_true, if_false, hasn, hrun, hqc, if_true]
        exact ⟨fun _ => hvO, congrArg DB.participants hvO, congrArg DB.pseq hvO⟩
      · simp only [orchestrate, hq0, Bool.false_eq_true, if_false, hasn, hrun, hqc]
        have hpart : (pendingOf cO).participants = db.participants := hpartr
        have hpseq : (pendingOf cO).pseq = db.pseq := hpseqr
        exact ⟨fun hfalse => Bool.noConfusion hfalse, hpart, hpseq⟩
  refine ⟨main.1, main.2.1, main.2.2, ?_⟩
  intro hne
  rcases hres : (orchestrate qerr snapshot numGroups restrictions grand mrand db).2
  · exact absurd (main.1 hres) hne
  · rfl

/-- Witness for C2: a two-member roster where the sole restriction forbids
the only possible pairing — matching is infeasible, the run aborts and the
visible database (pre-loaded with rows from an earlier run) is unchanged. -/
theorem C2_witness :
    (orchestrate (fun _ => false) [(1, "Alice"), (2, "Bob")] 1 [("Alice", "Bob")]
        (fun _ => 0) (fun _ _ => 0)
        { participants := [(1, "Alice", ""), (2, "Bob", "socks")], pseq := 2,
          groups := [(1, "Old Group")], members := [(1, 1), (1, 2)],
          assignments := [(1, 1, 2)] }).1
      = { participants := [(1, "Alice", ""), (2, "Bob", "socks")], pseq := 2,
          groups := [(1, "Old Group")], members := [(1, 1), (1, 2)],
          assignments := [(1, 1, 2)] } :=
  (C2_orchestration_rollback (fun _ => false) [(1, "Alice"), (2, "Bob")] 1
      [("Alice", "Bob")] (fun _ => 0) (fun _ _ => 0)
      { participants := [(1, "Alice", ""), (2, "Bob", "socks")], pseq := 2,
        groups := [(1, "Old Group")], members := [(1, 1), (1, 2)],
        assignments := [(1, 1, 2)] }).1 (by rfl)

end SecretAngel
